import Mathlib

/-!
Verification of the per-frame render-command assembly core of the
enter-core engine, together with its texture-asset loader and object
handles.

The Rust sources are embedded shallowly:

* imperative buffer writes become explicit state passing over a byte list,
  with a trace of write events recorded alongside;
* fallible operations (slice bounds checks, `Vec` indexing, the final
  `unwrap`) return `Option`, where `none` models a panic;
* the collaborators that live outside the provided sources (the frame
  buffer allocator, the pipeline provider, the object hierarchy) are
  modelled from the specification and marked as such in their doc
  comments.
-/

namespace EnterCore

/-- Vertex step mode of a vertex-buffer attribute: advanced per vertex or
per instance (wgpu's VertexStepMode). -/
inductive VertexStepMode where
  | Vertex
  | Instance
  deriving DecidableEq, Repr

/-- Semantic input keys. The source declares four well-known transform-row
key constants (KEY_TRANSFORM_ROW_0 .. KEY_TRANSFORM_ROW_3) in its
semantic_inputs module; every other key is engine- or game-specific and is
represented here by a numeric tag. -/
inductive SemanticInputKey where
  | transformRow0
  | transformRow1
  | transformRow2
  | transformRow3
  | custom (tag : Nat)
  deriving DecidableEq, Repr

/-- A vertex format, abstracted to the one datum the assembler reads from
it: its byte size (format.size() in the source). -/
structure VertexFormat where
  size : Nat
  deriving DecidableEq, Repr

/-- A vertex attribute of the reflected shader (element.attribute). -/
structure VertexAttribute where
  format : VertexFormat
  deriving DecidableEq, Repr

/-- One element of the reflected per-instance input layout; attr models
the element's attribute field (attribute is a Lean keyword). -/
structure PerInstanceElement where
  attr : VertexAttribute
  deriving DecidableEq, Repr

/-- The reflected per-instance input layout: its total stride in bytes and
its elements, indexed by semantic-input index. -/
structure PerInstanceInput where
  stride : Nat
  elements : List PerInstanceElement
  deriving DecidableEq, Repr

/-- The reflected shader descriptor consumed by the assembler. -/
structure ReflectedShader where
  per_instance_input : PerInstanceInput
  deriving DecidableEq, Repr

/-- The material's shader, carrying its reflection data. -/
structure Shader where
  reflected_shader : ReflectedShader
  deriving DecidableEq, Repr

/-- Per-semantic-input data stored in the material: step mode, index into
the reflected per-instance elements, and byte offset inside the stride. -/
structure SemanticInputData where
  step_mode : VertexStepMode
  index : Nat
  offset : Nat
  deriving DecidableEq, Repr

/-- A material property value: its declared vertex format
(value.to_vertex_format()) and its serialized bytes (value.as_bytes()). -/
structure PropertyValue where
  to_vertex_format : VertexFormat
  as_bytes : List Nat
  deriving DecidableEq, Repr

/-- A per-instance material property: byte offset and optional value. -/
structure MaterialProperty where
  offset : Nat
  value : Option PropertyValue
  deriving DecidableEq, Repr

/-- A bind-property entry of the material: the index of the bind-group
holder it refers to. -/
structure BindGroupIndex where
  group_index : Nat
  deriving DecidableEq, Repr

/-- A bind-group holder: its declared group index and its compiled bind
group when present (bind groups are opaque, represented by a tag). -/
structure BindGroupHolder where
  group : Nat
  bind_group : Option Nat
  deriving DecidableEq, Repr

/-- The material, as used by the assembler and by render: its shader, the
values of its bind_properties map (in iteration order), its bind-group
holders, the entries of its semantic_inputs map (in iteration order), and
the values of its per_instance_properties map (in iteration order). -/
structure Material where
  shader : Shader
  bind_properties : List BindGroupIndex
  bind_group_holders : List BindGroupHolder
  semantic_inputs : List (SemanticInputKey × SemanticInputData)
  per_instance_properties : List MaterialProperty
  deriving DecidableEq, Repr

/-- A 4x4 world matrix, seen exactly as the assembler sees it: four rows,
each exposed as its byte serialization (matrix.row(i).as_bytes()). -/
structure Mat4 where
  row : Fin 4 → List Nat

/-- Object identifiers. -/
abbrev ObjectId := Nat

/-- Modelled from the spec: the object hierarchy collaborator supplies
matrix(object_id), the object's current world matrix, assumed already
updated for the frame. -/
structure ObjectHierarchy where
  matrix : ObjectId → Mat4

/-- A GenericBufferAllocation, modelled by the byte contents it views. -/
abbrev GenericBufferAllocation := List Nat

/-- Modelled from the spec: the per-renderable renderer capability together
with its pipeline provider. obtain_pipeline holds the Option result of
resolving the pipeline through the cache (absent while assets load);
material holds the provider's shared material handle; the remaining fields
are the renderer's draw data and its callback for semantics unknown to the
core. -/
structure Renderer where
  obtain_pipeline : Option Nat
  material : Option Material
  vertex_count : Nat
  vertex_buffers : List GenericBufferAllocation
  copy_semantic_per_instance_input : SemanticInputKey → List Nat → List Nat

/-- Overwrite buf with data starting at offset (in-place slice write). -/
def writeBytes (buf : List Nat) (offset : Nat) (data : List Nat) : List Nat :=
  buf.take offset ++ data ++ buf.drop (offset + data.length)

/-- Contents of the sub-view slice(offset, size) of a buffer. -/
def readSlice (buf : List Nat) (offset size : Nat) : List Nat :=
  (buf.drop offset).take size

/-- The provenance of one staging write. -/
inductive WriteSource where
  | transformRow (i : Fin 4)
  | semanticDelegate (key : SemanticInputKey)
  | propertyValue
  deriving DecidableEq, Repr

/-- One staging write: its byte offset, the bytes written, and where they
came from. -/
structure WriteEvent where
  offset : Nat
  data : List Nat
  source : WriteSource
  deriving DecidableEq, Repr

/-- Modelled from the spec: slice(offset, size) is bounds-checked, failing
fast when the sub-view exceeds the buffer, and copy_from_slice requires the
data to fill the slice exactly; a violation is a panic (none). On success
the bytes land at offsets [offset, offset + size). -/
def sliceCopy (buf : List Nat) (offset size : Nat) (data : List Nat) :
    Option (List Nat) :=
  if offset + size ≤ buf.length ∧ data.length = size then
    some (writeBytes buf offset data)
  else
    none

/-- Slice the buffer at (offset, size), copy data into the slice, and
record the write as an event. -/
def sliceCopyEvent (buf : List Nat) (offset size : Nat) (data : List Nat)
    (source : WriteSource) : Option (List Nat × List WriteEvent) :=
  (sliceCopy buf offset size data).map
    (fun b => (b, [⟨offset, data, source⟩]))

/-- One iteration of the semantic-inputs loop of build_rendering_command:
skip non-instance entries, look the attribute size up in the reflected
layout, slice the staging buffer at the declared offset, then either copy
the matching transform row or delegate to the renderer. -/
def processSemanticInput (renderer : Renderer) (matrix : Mat4)
    (input : PerInstanceInput) (key : SemanticInputKey)
    (input_data : SemanticInputData) (buf : List Nat) :
    Option (List Nat × List WriteEvent) :=
  if input_data.step_mode ≠ VertexStepMode.Instance then
    some (buf, [])
  else
    match input.elements.get? input_data.index with
    | none => none
    | some element =>
      let size := element.attr.format.size
      match key with
      | SemanticInputKey.transformRow0 =>
        sliceCopyEvent buf input_data.offset size (matrix.row 0)
          (WriteSource.transformRow 0)
      | SemanticInputKey.transformRow1 =>
        sliceCopyEvent buf input_data.offset size (matrix.row 1)
          (WriteSource.transformRow 1)
      | SemanticInputKey.transformRow2 =>
        sliceCopyEvent buf input_data.offset size (matrix.row 2)
          (WriteSource.transformRow 2)
      | SemanticInputKey.transformRow3 =>
        sliceCopyEvent buf input_data.offset size (matrix.row 3)
          (WriteSource.transformRow 3)
      | SemanticInputKey.custom tag =>
        sliceCopyEvent buf input_data.offset size
          (renderer.copy_semantic_per_instance_input
            (SemanticInputKey.custom tag)
            (readSlice buf input_data.offset size))
          (WriteSource.semanticDelegate (SemanticInputKey.custom tag))

/-- The semantic-inputs loop of build_rendering_command, over the entries
of the material's semantic_inputs map. -/
def processSemanticInputs (renderer : Renderer) (matrix : Mat4)
    (input : PerInstanceInput) :
    List (SemanticInputKey × SemanticInputData) → List Nat →
    Option (List Nat × List WriteEvent)
  | [], buf => some (buf, [])
  | (key, input_data) :: rest, buf =>
    match processSemanticInput renderer matrix input key input_data buf with
    | none => none
    | some (buf1, evs) =>
      match processSemanticInputs renderer matrix input rest buf1 with
      | none => none
      | some (buf2, evs2) => some (buf2, evs ++ evs2)

/-- One iteration of the per-instance-properties loop: a property with a
present value is serialized into its declared format and written at its
offset; an absent value writes nothing. -/
def processProperty (buf : List Nat) (property : MaterialProperty) :
    Option (List Nat × List WriteEvent) :=
  match property.value with
  | none => some (buf, [])
  | some value =>
    sliceCopyEvent buf property.offset value.to_vertex_format.size
      value.as_bytes WriteSource.propertyValue

/-- The per-instance-properties loop of build_rendering_command. -/
def processProperties :
    List MaterialProperty → List Nat → Option (List Nat × List WriteEvent)
  | [], buf => some (buf, [])
  | p :: rest, buf =>
    match processProperty buf p with
    | none => none
    | some (buf1, evs) =>
      match processProperties rest buf1 with
      | none => none
      | some (buf2, evs2) => some (buf2, evs ++ evs2)

/-- Modelled from the spec: alloc_staging_buffer(size) returns a fresh
CPU-writable region of exactly size bytes; contents start unspecified
(zeros here). -/
def alloc_staging_buffer (size : Nat) : List Nat :=
  List.replicate size 0

/-- Modelled from the spec: commit_staging_buffer copies the staging
contents into a device buffer obtained from the pool and returns the
device-side allocation; the source types the result as the Option consumed
by the command's per_instance_buffer field. -/
def commit_staging_buffer (buf : List Nat) : Option GenericBufferAllocation :=
  some buf

/-- The assembled rendering command. -/
structure RenderingCommand where
  pipeline : Nat
  material : Material
  vertex_count : Nat
  per_vertex_buffers : List GenericBufferAllocation
  per_instance_buffer : Option GenericBufferAllocation
  deriving DecidableEq, Repr

/-- Result of build_rendering_command together with the observable effects
it performed on the frame buffer allocator: sizes of staging allocations
requested, staging writes performed, and number of commits. The outer
Option of build_rendering_command is none exactly when the source would
panic. -/
structure BuildOutput where
  command : Option RenderingCommand
  staging_allocs : List Nat
  writes : List WriteEvent
  commits : Nat
  deriving DecidableEq, Repr

/-- build_rendering_command: resolve pipeline and material (early return
none for either), allocate a staging buffer of the reflected per-instance
stride, run the semantic-inputs loop and the properties loop, commit, then
query the provider's material a second time (unwrap, panic on none) for the
returned command. -/
def build_rendering_command (object_id : ObjectId)
    (object_hierarchy : ObjectHierarchy) (renderer : Renderer) :
    Option BuildOutput :=
  let matrix := object_hierarchy.matrix object_id
  match renderer.obtain_pipeline with
  | none => some ⟨none, [], [], 0⟩
  | some pipeline =>
    match renderer.material with
    | none => some ⟨none, [], [], 0⟩
    | some material =>
      let stride := material.shader.reflected_shader.per_instance_input.stride
      let staging := alloc_staging_buffer stride
      match processSemanticInputs renderer matrix
          material.shader.reflected_shader.per_instance_input
          material.semantic_inputs staging with
      | none => none
      | some (buf1, evs1) =>
        match processProperties material.per_instance_properties buf1 with
        | none => none
        | some (buf2, evs2) =>
          let per_instance_buffer := commit_staging_buffer buf2
          match renderer.material with
          | none => none
          | some material2 =>
            some ⟨some ⟨pipeline, material2, renderer.vertex_count,
              renderer.vertex_buffers, per_instance_buffer⟩,
              [stride], evs1 ++ evs2, 1⟩

/-- Commands recorded against a render pass. -/
inductive PassCmd where
  | setPipeline (pipeline : Nat)
  | setBindGroup (group : Nat) (bindGroup : Nat)
  | setVertexBuffer (slot : Nat) (buffer : GenericBufferAllocation)
  | draw (vertex_start vertex_end instance_start instance_end : Nat)
  deriving DecidableEq, Repr

/-- Whether a pass command is a set_bind_group call. -/
def PassCmd.isBindGroupCmd : PassCmd → Bool
  | PassCmd.setBindGroup _ _ => true
  | _ => false

/-- The bind-group loop of RenderingCommand::render: for each value of the
material's bind_properties map, index into bind_group_holders (panic when
out of range, modelled as none) and emit a set_bind_group at the holder's
declared group index when its compiled bind group is present. -/
def bindGroupCommands (holders : List BindGroupHolder) :
    List BindGroupIndex → Option (List PassCmd)
  | [] => some []
  | bind_group_index :: rest =>
    match holders.get? bind_group_index.group_index with
    | none => none
    | some bind_group_holder =>
      match bindGroupCommands holders rest with
      | none => none
      | some cmds =>
        match bind_group_holder.bind_group with
        | some bind_group =>
          some (PassCmd.setBindGroup bind_group_holder.group bind_group :: cmds)
        | none => some cmds

/-- The per-vertex-buffer loop of RenderingCommand::render: bind each
buffer at sequential slots starting from the given one. -/
def vertexBufferCommands : Nat → List GenericBufferAllocation → List PassCmd
  | _, [] => []
  | slot, buffer :: rest =>
    PassCmd.setVertexBuffer slot buffer :: vertexBufferCommands (slot + 1) rest

/-- The per-instance binding of RenderingCommand::render: when a
per-instance buffer is present, bind it at the given slot. -/
def instanceBufferCommands (slot : Nat) :
    Option GenericBufferAllocation → List PassCmd
  | some buffer => [PassCmd.setVertexBuffer slot buffer]
  | none => []

/-- RenderingCommand::render, as the list of commands it records on the
pass: set_pipeline, the bind-group loop, the per-vertex buffers at slots
0.., the optional per-instance buffer at the next slot, and the single
draw over vertices 0..vertex_count and instances 0..1. -/
def RenderingCommand.render (cmd : RenderingCommand) : Option (List PassCmd) :=
  match bindGroupCommands cmd.material.bind_group_holders
      cmd.material.bind_properties with
  | none => none
  | some bgs =>
    some (PassCmd.setPipeline cmd.pipeline ::
      (bgs ++ vertexBufferCommands 0 cmd.per_vertex_buffers ++
        instanceBufferCommands cmd.per_vertex_buffers.length
          cmd.per_instance_buffer ++
        [PassCmd.draw 0 cmd.vertex_count 0 1]))

/-- The well-known transform-row index of a semantic key, when it has one. -/
def rowIndex : SemanticInputKey → Option (Fin 4)
  | SemanticInputKey.transformRow0 => some 0
  | SemanticInputKey.transformRow1 => some 1
  | SemanticInputKey.transformRow2 => some 2
  | SemanticInputKey.transformRow3 => some 3
  | SemanticInputKey.custom _ => none

/-- Whether a write event is the delegated write for the given key. -/
def isDelegateFor (key : SemanticInputKey) (e : WriteEvent) : Bool :=
  e.source = WriteSource.semanticDelegate key

/-- Whether a write event came from a material property value. -/
def isPropertyWrite (e : WriteEvent) : Bool :=
  match e.source with
  | WriteSource.propertyValue => true
  | _ => false

/-- The material's reflected per-instance input layout. -/
def instanceInput (m : Material) : PerInstanceInput :=
  m.shader.reflected_shader.per_instance_input

/-- Whether a semantic-inputs entry has instance step mode. -/
def isInstanceEntry (p : SemanticInputKey × SemanticInputData) : Bool :=
  match p.2.step_mode with
  | VertexStepMode.Instance => true
  | VertexStepMode.Vertex => false

/-- Whether a material property has a present value. -/
def hasValue (p : MaterialProperty) : Bool :=
  p.value.isSome

/-- Byte serialization of an f32 zero (little endian). -/
def f32Zero : List Nat := [0, 0, 0, 0]

/-- Byte serialization of an f32 one (little endian). -/
def f32One : List Nat := [0, 0, 128, 63]

/-- Byte serialization of row i of the identity matrix: four f32
components, 1.0 at position i. -/
def identityRowBytes (i : Fin 4) : List Nat :=
  (List.ofFn (fun j : Fin 4 => if j = i then f32One else f32Zero)).flatten

/-- The identity world matrix, in byte-per-row view. -/
def identityMat : Mat4 :=
  ⟨identityRowBytes⟩

/-- The four identity rows concatenated in order. -/
def identityBytes : List Nat :=
  identityRowBytes 0 ++ identityRowBytes 1 ++ identityRowBytes 2 ++
    identityRowBytes 3

/-- Scenario material: per-instance stride 64, four Float32x4 elements, the
four transform-row semantics at offsets 0/16/32/48, no custom properties. -/
def mat64 : Material :=
  { shader := ⟨⟨⟨64, List.replicate 4 ⟨⟨⟨16⟩⟩⟩⟩⟩⟩
    bind_properties := []
    bind_group_holders := []
    semantic_inputs :=
      [(SemanticInputKey.transformRow0, ⟨VertexStepMode.Instance, 0, 0⟩),
       (SemanticInputKey.transformRow1, ⟨VertexStepMode.Instance, 1, 16⟩),
       (SemanticInputKey.transformRow2, ⟨VertexStepMode.Instance, 2, 32⟩),
       (SemanticInputKey.transformRow3, ⟨VertexStepMode.Instance, 3, 48⟩)]
    per_instance_properties := [] }

/-- Scenario renderer: pipeline and material resolved, three vertices, no
per-vertex buffers, identity delegate. -/
def renderer0 : Renderer :=
  { obtain_pipeline := some 0
    material := some mat64
    vertex_count := 3
    vertex_buffers := []
    copy_semantic_per_instance_input := fun _ s => s }

/-- Scenario hierarchy: every object has the identity world matrix. -/
def hier0 : ObjectHierarchy :=
  ⟨fun _ => identityMat⟩

/-- The build output of the scenario. -/
def outS : BuildOutput :=
  { command := some
      { pipeline := 0
        material := mat64
        vertex_count := 3
        per_vertex_buffers := []
        per_instance_buffer := some identityBytes }
    staging_allocs := [64]
    writes :=
      [⟨0, identityRowBytes 0, WriteSource.transformRow 0⟩,
       ⟨16, identityRowBytes 1, WriteSource.transformRow 1⟩,
       ⟨32, identityRowBytes 2, WriteSource.transformRow 2⟩,
       ⟨48, identityRowBytes 3, WriteSource.transformRow 3⟩]
    commits := 1 }

/-- Custom-semantic scenario material: stride 8, two Float32 elements, one
custom semantic at offset 0 and one property with a present value at
offset 4. -/
def matC : Material :=
  { shader := ⟨⟨⟨8, [⟨⟨⟨4⟩⟩⟩, ⟨⟨⟨4⟩⟩⟩]⟩⟩⟩
    bind_properties := []
    bind_group_holders := []
    semantic_inputs :=
      [(SemanticInputKey.custom 9, ⟨VertexStepMode.Instance, 0, 0⟩)]
    per_instance_properties := [⟨4, some ⟨⟨4⟩, [1, 2, 3, 4]⟩⟩] }

/-- Custom-semantic scenario renderer: its delegate adds one to each byte
of the slice it is given. -/
def rendererC : Renderer :=
  { obtain_pipeline := some 1
    material := some matC
    vertex_count := 6
    vertex_buffers := [[7, 7]]
    copy_semantic_per_instance_input := fun _ s => s.map (fun b => b + 1) }

/-- The build output of the custom-semantic scenario. -/
def outC : BuildOutput :=
  { command := some
      { pipeline := 1
        material := matC
        vertex_count := 6
        per_vertex_buffers := [[7, 7]]
        per_instance_buffer := some [1, 1, 1, 1, 1, 2, 3, 4] }
    staging_allocs := [8]
    writes :=
      [⟨0, [1, 1, 1, 1], WriteSource.semanticDelegate (SemanticInputKey.custom 9)⟩,
       ⟨4, [1, 2, 3, 4], WriteSource.propertyValue⟩]
    commits := 1 }

/-- Renderer whose provider has resolved neither pipeline nor material. -/
def rendererNone : Renderer :=
  { obtain_pipeline := none
    material := none
    vertex_count := 0
    vertex_buffers := []
    copy_semantic_per_instance_input := fun _ s => s }

/-- Render-scenario material: one bind property referencing the single
holder, whose bind group is compiled. -/
def matR : Material :=
  { shader := ⟨⟨⟨0, []⟩⟩⟩
    bind_properties := [⟨0⟩]
    bind_group_holders := [⟨3, some 11⟩]
    semantic_inputs := []
    per_instance_properties := [] }

/-- Render-scenario command: two per-vertex buffers and a per-instance
buffer. -/
def cmdR : RenderingCommand :=
  ⟨2, matR, 5, [[1], [2]], some [9]⟩

/-- The pass commands recorded by the render scenario. -/
def cmdsR : List PassCmd :=
  [PassCmd.setPipeline 2, PassCmd.setBindGroup 3 11,
   PassCmd.setVertexBuffer 0 [1], PassCmd.setVertexBuffer 1 [2],
   PassCmd.setVertexBuffer 2 [9], PassCmd.draw 0 5 0 1]

/-- Material with one holder whose bind group is compiled but which no
bind property references. -/
def matC4 : Material :=
  { shader := ⟨⟨⟨0, []⟩⟩⟩
    bind_properties := []
    bind_group_holders := [⟨5, some 7⟩]
    semantic_inputs := []
    per_instance_properties := [] }

/-- Command over matC4. -/
def cmdC4 : RenderingCommand :=
  ⟨0, matC4, 0, [], none⟩

/-- The pass commands recorded for cmdC4: no bind group is ever set. -/
def cmdsC4 : List PassCmd :=
  [PassCmd.setPipeline 0, PassCmd.draw 0 0 0 1]

end EnterCore

namespace R3dAsset

/-- Texture pixel formats. -/
inductive TextureFormat where
  | RGB8
  | RGBA8
  deriving DecidableEq, Repr

/-- Texture filtering modes. -/
inductive TextureFilterMode where
  | Point
  | Bilinear
  | Trilinear
  deriving DecidableEq, Repr

/-- Texture addressing modes. -/
inductive TextureAddressMode where
  | Clamp
  | Repeat
  deriving DecidableEq, Repr

/-- A texel range of a sprite. -/
structure SpriteTexelRange where
  min : Nat
  max : Nat
  deriving DecidableEq, Repr

/-- A texel range of a nine-patch. -/
structure NinePatchTexelRange where
  min : Nat
  mid_min : Nat
  mid_max : Nat
  max : Nat
  deriving DecidableEq, Repr

/-- A sprite region of a texture. -/
structure Sprite where
  name : String
  filter_mode : TextureFilterMode
  address_mode : TextureAddressMode × TextureAddressMode
  texel_mapping : SpriteTexelRange × SpriteTexelRange
  deriving DecidableEq, Repr

/-- A nine-patch region of a texture. -/
structure NinePatch where
  name : String
  filter_mode : TextureFilterMode
  address_mode : TextureAddressMode × TextureAddressMode
  texel_mapping : NinePatchTexelRange × NinePatchTexelRange
  deriving DecidableEq, Repr

/-- The serialized texture source. -/
structure TextureSource where
  width : Nat
  height : Nat
  format : TextureFormat
  filter_mode : TextureFilterMode
  address_mode : TextureAddressMode × TextureAddressMode
  texels : List Nat
  sprites : List Sprite
  nine_patches : List NinePatch
  deriving DecidableEq, Repr

/-- The loaded texture asset; the structure field accessors are exactly the
TextureAsset trait accessors of the source, and id is the Asset::id
accessor. -/
structure Texture where
  id : Nat
  width : Nat
  height : Nat
  format : TextureFormat
  filter_mode : TextureFilterMode
  address_mode : TextureAddressMode × TextureAddressMode
  texels : List Nat
  sprites : List Sprite
  nine_patches : List NinePatch
  deriving DecidableEq, Repr

/-- The dependency provider passed to load; TextureSource::load ignores it,
so it is opaque here. -/
abbrev AssetDepsProvider := Unit

/-- Asset load errors (opaque: TextureSource::load never constructs one). -/
inductive AssetLoadError where
  | loadError
  deriving DecidableEq, Repr

/-- TextureSource::dependencies: a texture has no dependencies. -/
def TextureSource.dependencies (_self : TextureSource) : List Nat :=
  []

/-- TextureSource::load: construct the Texture from the source fields and
the given id, always succeeding. -/
def TextureSource.load (self : TextureSource) (id : Nat)
    (_deps_provider : AssetDepsProvider) : Except AssetLoadError Texture :=
  Except.ok
    { id := id
      width := self.width
      height := self.height
      format := self.format
      filter_mode := self.filter_mode
      address_mode := self.address_mode
      texels := self.texels
      sprites := self.sprites
      nine_patches := self.nine_patches }

end R3dAsset

namespace ObjectModel

/-- An object handle: the context handle and ECS entity are opaque tags;
object_id identifies the object. -/
structure ObjectHandle where
  ctx : Nat
  entity : Nat
  object_id : Nat
  deriving Repr

/-- PartialEq::eq for ObjectHandle: compares object ids only. -/
def ObjectHandle.eq (a b : ObjectHandle) : Bool :=
  a.object_id == b.object_id

end ObjectModel

namespace EnterCore

/-- Building the transform-row scenario produces exactly the expected
output. -/
lemma buildS_eq : build_rendering_command 0 hier0 renderer0 = some outS := by
  decide

/-- Building the custom-semantic scenario produces exactly the expected
output. -/
lemma buildC_eq : build_rendering_command 0 hier0 rendererC = some outC := by
  decide

/-- Rendering the render scenario records exactly the expected commands. -/
lemma renderR_eq : cmdR.render = some cmdsR := by
  decide

/-- Writing data inside the buffer preserves its length. -/
lemma writeBytes_length {buf : List Nat} {offset : Nat} {data : List Nat}
    (h : offset + data.length ≤ buf.length) :
    (writeBytes buf offset data).length = buf.length := by
  simp only [writeBytes, List.length_append, List.length_take,
    List.length_drop]
  omega

/-- An in-bounds slice has exactly the requested size. -/
lemma readSlice_length {buf : List Nat} {offset size : Nat}
    (h : offset + size ≤ buf.length) :
    (readSlice buf offset size).length = size := by
  simp only [readSlice, List.length_take, List.length_drop]
  omega

/-- Inversion for a successful slice-copy: the slice was in bounds, the
data filled it exactly, the buffer was overwritten at the offset keeping
its length, and exactly one event was recorded. -/
lemma sliceCopyEvent_some {buf : List Nat} {offset size : Nat}
    {data : List Nat} {source : WriteSource} {buf1 : List Nat}
    {evs : List WriteEvent}
    (h : sliceCopyEvent buf offset size data source = some (buf1, evs)) :
    offset + size ≤ buf.length ∧ data.length = size ∧
      buf1 = writeBytes buf offset data ∧ buf1.length = buf.length ∧
      evs = [⟨offset, data, source⟩] := by
  rw [sliceCopyEvent, Option.map_eq_some'] at h
  obtain ⟨b, hb, heq⟩ := h
  injection heq with e1 e2
  rw [sliceCopy] at hb
  split at hb
  case isTrue hc =>
    injection hb with hb
    refine ⟨hc.1, hc.2, ?_, ?_, e2.symm⟩
    · rw [← e1, ← hb]
    · rw [← e1, ← hb]
      exact writeBytes_length (by omega)
  case isFalse hc =>
    exact absurd hb (by simp)

/-- Full inversion for one iteration of the semantic-inputs loop. -/
lemma processSemanticInput_cases
    {renderer : Renderer} {matrix : Mat4} {input : PerInstanceInput}
    {key : SemanticInputKey} {input_data : SemanticInputData}
    {buf buf1 : List Nat} {evs : List WriteEvent}
    (h : processSemanticInput renderer matrix input key input_data buf =
      some (buf1, evs)) :
    (input_data.step_mode ≠ VertexStepMode.Instance ∧ buf1 = buf ∧ evs = []) ∨
    (input_data.step_mode = VertexStepMode.Instance ∧
      ∃ element, input.elements.get? input_data.index = some element ∧
        input_data.offset + element.attr.format.size ≤ buf.length ∧
        buf1.length = buf.length ∧
        ((∃ i : Fin 4, rowIndex key = some i ∧
            (matrix.row i).length = element.attr.format.size ∧
            buf1 = writeBytes buf input_data.offset (matrix.row i) ∧
            evs = [⟨input_data.offset, matrix.row i,
              WriteSource.transformRow i⟩]) ∨
         (rowIndex key = none ∧
            (renderer.copy_semantic_per_instance_input key
              (readSlice buf input_data.offset
                element.attr.format.size)).length =
              element.attr.format.size ∧
            buf1 = writeBytes buf input_data.offset
              (renderer.copy_semantic_per_instance_input key
                (readSlice buf input_data.offset element.attr.format.size)) ∧
            evs = [⟨input_data.offset,
              renderer.copy_semantic_per_instance_input key
                (readSlice buf input_data.offset element.attr.format.size),
              WriteSource.semanticDelegate key⟩]))) := by
  rw [processSemanticInput] at h
  by_cases hstep : input_data.step_mode ≠ VertexStepMode.Instance
  · rw [if_pos hstep] at h
    injection h with h
    injection h with e1 e2
    exact Or.inl ⟨hstep, e1.symm, e2.symm⟩
  · rw [if_neg hstep] at h
    push_neg at hstep
    rcases hget : input.elements.get? input_data.index with _ | element
    · rw [hget] at h
      exact absurd h (by simp)
    · rw [hget] at h
      refine Or.inr ⟨hstep, element, rfl, ?_⟩
      cases key with
      | transformRow0 =>
        obtain ⟨hb, hd, h1, hlen, hevs⟩ := sliceCopyEvent_some h
        exact ⟨hb, hlen, Or.inl ⟨0, rfl, hd, h1, hevs⟩⟩
      | transformRow1 =>
        obtain ⟨hb, hd, h1, hlen, hevs⟩ := sliceCopyEvent_some h
        exact ⟨hb, hlen, Or.inl ⟨1, rfl, hd, h1, hevs⟩⟩
      | transformRow2 =>
        obtain ⟨hb, hd, h1, hlen, hevs⟩ := sliceCopyEvent_some h
        exact ⟨hb, hlen, Or.inl ⟨2, rfl, hd, h1, hevs⟩⟩
      | transformRow3 =>
        obtain ⟨hb, hd, h1, hlen, hevs⟩ := sliceCopyEvent_some h
        exact ⟨hb, hlen, Or.inl ⟨3, rfl, hd, h1, hevs⟩⟩
      | custom tag =>
        obtain ⟨hb, hd, h1, hlen, hevs⟩ := sliceCopyEvent_some h
        exact ⟨hb, hlen, Or.inr ⟨rfl, hd, h1, hevs⟩⟩

/-- One iteration preserves the buffer length. -/
lemma processSemanticInput_length
    {renderer : Renderer} {matrix : Mat4} {input : PerInstanceInput}
    {key : SemanticInputKey} {input_data : SemanticInputData}
    {buf buf1 : List Nat} {evs : List WriteEvent}
    (h : processSemanticInput renderer matrix input key input_data buf =
      some (buf1, evs)) :
    buf1.length = buf.length := by
  rcases processSemanticInput_cases h with ⟨_, rfl, _⟩ | ⟨_, _, _, _, hlen, _⟩
  · rfl
  · exact hlen

/-- Every event of one iteration lies inside the buffer. -/
lemma processSemanticInput_bounds
    {renderer : Renderer} {matrix : Mat4} {input : PerInstanceInput}
    {key : SemanticInputKey} {input_data : SemanticInputData}
    {buf buf1 : List Nat} {evs : List WriteEvent}
    (h : processSemanticInput renderer matrix input key input_data buf =
      some (buf1, evs)) :
    ∀ e ∈ evs, e.offset + e.data.length ≤ buf.length := by
  rcases processSemanticInput_cases h with ⟨_, _, rfl⟩ |
    ⟨_, element, _, hb, _, ⟨i, _, hd, _, rfl⟩ | ⟨_, hd, _, rfl⟩⟩
  · intro e he
    exact absurd he (List.not_mem_nil e)
  · intro e he
    rw [List.mem_singleton] at he
    subst he
    simpa [hd] using hb
  · intro e he
    rw [List.mem_singleton] at he
    subst he
    simpa [hd] using hb

/-- One iteration records one event for an instance-step entry and none
otherwise. -/
lemma processSemanticInput_count
    {renderer : Renderer} {matrix : Mat4} {input : PerInstanceInput}
    {key : SemanticInputKey} {input_data : SemanticInputData}
    {buf buf1 : List Nat} {evs : List WriteEvent}
    (h : processSemanticInput renderer matrix input key input_data buf =
      some (buf1, evs)) :
    evs.length = if isInstanceEntry (key, input_data) then 1 else 0 := by
  rcases processSemanticInput_cases h with ⟨hstep, _, rfl⟩ |
    ⟨hstep, _, _, _, _, ⟨_, _, _, _, rfl⟩ | ⟨_, _, _, rfl⟩⟩
  · have : isInstanceEntry (key, input_data) = false := by
      rcases hs : input_data.step_mode with _ | _
      · simp [isInstanceEntry, hs]
      · exact absurd hs hstep
    rw [this]
    rfl
  · have : isInstanceEntry (key, input_data) = true := by
      simp [isInstanceEntry, hstep]
    rw [this]
    rfl
  · have : isInstanceEntry (key, input_data) = true := by
      simp [isInstanceEntry, hstep]
    rw [this]
    rfl

/-- Every event of one iteration is a transform-row write or the delegated
write for this iteration's key. -/
lemma processSemanticInput_source
    {renderer : Renderer} {matrix : Mat4} {input : PerInstanceInput}
    {key : SemanticInputKey} {input_data : SemanticInputData}
    {buf buf1 : List Nat} {evs : List WriteEvent}
    (h : processSemanticInput renderer matrix input key input_data buf =
      some (buf1, evs)) :
    ∀ e ∈ evs, (∃ i : Fin 4, e.source = WriteSource.transformRow i) ∨
      e.source = WriteSource.semanticDelegate key := by
  rcases processSemanticInput_cases h with ⟨_, _, rfl⟩ |
    ⟨_, _, _, _, _, ⟨i, _, _, _, rfl⟩ | ⟨_, _, _, rfl⟩⟩
  · intro e he
    exact absurd he (List.not_mem_nil e)
  · intro e he
    rw [List.mem_singleton] at he
    subst he
    exact Or.inl ⟨i, rfl⟩
  · intro e he
    rw [List.mem_singleton] at he
    subst he
    exact Or.inr rfl

/-- Inversion for one step of the semantic-inputs fold. -/
lemma processSemanticInputs_cons
    {renderer : Renderer} {matrix : Mat4} {input : PerInstanceInput}
    {key : SemanticInputKey} {input_data : SemanticInputData}
    {rest : List (SemanticInputKey × SemanticInputData)}
    {buf buf2 : List Nat} {evs : List WriteEvent}
    (h : processSemanticInputs renderer matrix input
      ((key, input_data) :: rest) buf = some (buf2, evs)) :
    ∃ buf1 evs1 evs2,
      processSemanticInput renderer matrix input key input_data buf =
        some (buf1, evs1) ∧
      processSemanticInputs renderer matrix input rest buf1 =
        some (buf2, evs2) ∧
      evs = evs1 ++ evs2 := by
  rw [processSemanticInputs] at h
  rcases h1 : processSemanticInput renderer matrix input key input_data buf
    with _ | ⟨b1, e1⟩
  · rw [h1] at h
    exact absurd h (by simp)
  · rw [h1] at h
    dsimp only [] at h
    rcases h2 : processSemanticInputs renderer matrix input rest b1
      with _ | ⟨b2, e2⟩
    · rw [h2] at h
      exact absurd h (by simp)
    · rw [h2] at h
      injection h with h
      injection h with ha hb
      exact ⟨b1, e1, e2, rfl, ha ▸ h2, hb.symm⟩

/-- Inversion for the empty semantic-inputs fold. -/
lemma processSemanticInputs_nil
    {renderer : Renderer} {matrix : Mat4} {input : PerInstanceInput}
    {buf buf2 : List Nat} {evs : List WriteEvent}
    (h : processSemanticInputs renderer matrix input [] buf =
      some (buf2, evs)) :
    buf2 = buf ∧ evs = [] := by
  rw [processSemanticInputs] at h
  injection h with h
  injection h with ha hb
  exact ⟨ha.symm, hb.symm⟩

/-- The semantic-inputs fold preserves the buffer length. -/
lemma processSemanticInputs_length
    {renderer : Renderer} {matrix : Mat4} {input : PerInstanceInput} :
    ∀ {list : List (SemanticInputKey × SemanticInputData)}
      {buf buf2 : List Nat} {evs : List WriteEvent},
      processSemanticInputs renderer matrix input list buf =
        some (buf2, evs) →
      buf2.length = buf.length := by
  intro list
  induction list with
  | nil =>
    intro buf buf2 evs h
    rw [(processSemanticInputs_nil h).1]
  | cons hd tl ih =>
    intro buf buf2 evs h
    obtain ⟨key, input_data⟩ := hd
    obtain ⟨b1, e1, e2, h1, h2, _⟩ := processSemanticInputs_cons h
    rw [ih h2, processSemanticInput_length h1]

/-- Every event of the semantic-inputs fold lies inside the buffer. -/
lemma processSemanticInputs_bounds
    {renderer : Renderer} {matrix : Mat4} {input : PerInstanceInput} :
    ∀ {list : List (SemanticInputKey × SemanticInputData)}
      {buf buf2 : List Nat} {evs : List WriteEvent},
      processSemanticInputs renderer matrix input list buf =
        some (buf2, evs) →
      ∀ e ∈ evs, e.offset + e.data.length ≤ buf.length := by
  intro list
  induction list with
  | nil =>
    intro buf buf2 evs h e he
    rw [(processSemanticInputs_nil h).2] at he
    exact absurd he (List.not_mem_nil e)
  | cons hd tl ih =>
    intro buf buf2 evs h e he
    obtain ⟨key, input_data⟩ := hd
    obtain ⟨b1, e1, e2, h1, h2, rfl⟩ := processSemanticInputs_cons h
    rcases List.mem_append.mp he with h3 | h3
    · exact processSemanticInput_bounds h1 e h3
    · have := ih h2 e h3
      rw [processSemanticInput_length h1] at this
      exact this

/-- The semantic-inputs fold records exactly one event per instance-step
entry. -/
lemma processSemanticInputs_count
    {renderer : Renderer} {matrix : Mat4} {input : PerInstanceInput} :
    ∀ {list : List (SemanticInputKey × SemanticInputData)}
      {buf buf2 : List Nat} {evs : List WriteEvent},
      processSemanticInputs renderer matrix input list buf =
        some (buf2, evs) →
      evs.length = (list.filter isInstanceEntry).length := by
  intro list
  induction list with
  | nil =>
    intro buf buf2 evs h
    rw [(processSemanticInputs_nil h).2]
    rfl
  | cons hd tl ih =>
    intro buf buf2 evs h
    obtain ⟨key, input_data⟩ := hd
    obtain ⟨b1, e1, e2, h1, h2, rfl⟩ := processSemanticInputs_cons h
    rw [List.length_append, processSemanticInput_count h1, ih h2,
      List.filter_cons]
    rcases hi : isInstanceEntry (key, input_data) with _ | _
    · simp
    · simp [Nat.add_comm]

/-- Every event of the semantic-inputs fold is a transform-row write or a
delegated write for one of the listed keys. -/
lemma processSemanticInputs_source
    {renderer : Renderer} {matrix : Mat4} {input : PerInstanceInput} :
    ∀ {list : List (SemanticInputKey × SemanticInputData)}
      {buf buf2 : List Nat} {evs : List WriteEvent},
      processSemanticInputs renderer matrix input list buf =
        some (buf2, evs) →
      ∀ e ∈ evs, (∃ i : Fin 4, e.source = WriteSource.transformRow i) ∨
        ∃ k, k ∈ list.map Prod.fst ∧
          e.source = WriteSource.semanticDelegate k := by
  intro list
  induction list with
  | nil =>
    intro buf buf2 evs h e he
    rw [(processSemanticInputs_nil h).2] at he
    exact absurd he (List.not_mem_nil e)
  | cons hd tl ih =>
    intro buf buf2 evs h e he
    obtain ⟨key, input_data⟩ := hd
    obtain ⟨b1, e1, e2, h1, h2, rfl⟩ := processSemanticInputs_cons h
    rcases List.mem_append.mp he with h3 | h3
    · rcases processSemanticInput_source h1 e h3 with hrow | hdel
      · exact Or.inl hrow
      · exact Or.inr ⟨key, by simp, hdel⟩
    · rcases ih h2 e h3 with hrow | ⟨k, hk, hdel⟩
      · exact Or.inl hrow
      · exact Or.inr ⟨k, by simp [hk], hdel⟩

/-- A transform-row instance entry of the list yields its row write in the
fold's events, with the row bytes filling the declared attribute size. -/
lemma processSemanticInputs_row_mem
    {renderer : Renderer} {matrix : Mat4} {input : PerInstanceInput}
    {key : SemanticInputKey} {input_data : SemanticInputData} {i : Fin 4} :
    ∀ {list : List (SemanticInputKey × SemanticInputData)}
      {buf buf2 : List Nat} {evs : List WriteEvent},
      (key, input_data) ∈ list →
      input_data.step_mode = VertexStepMode.Instance →
      rowIndex key = some i →
      processSemanticInputs renderer matrix input list buf =
        some (buf2, evs) →
      ∃ element, input.elements.get? input_data.index = some element ∧
        (matrix.row i).length = element.attr.format.size ∧
        WriteEvent.mk input_data.offset (matrix.row i)
          (WriteSource.transformRow i) ∈ evs := by
  intro list
  induction list with
  | nil =>
    intro buf buf2 evs hmem _ _ _
    exact absurd hmem (List.not_mem_nil _)
  | cons hd tl ih =>
    intro buf buf2 evs hmem hstep hrow h
    obtain ⟨key1, input_data1⟩ := hd
    obtain ⟨b1, e1, e2, h1, h2, rfl⟩ := processSemanticInputs_cons h
    rcases List.mem_cons.mp hmem with heq | htl
    · injection heq with heqk heqd
      subst heqk
      subst heqd
      rcases processSemanticInput_cases h1 with ⟨hne, _, _⟩ |
        ⟨_, element, hget, _, _,
          ⟨i2, hrow2, hlen2, _, rfl⟩ | ⟨hnone, _, _, _⟩⟩
      · exact absurd hstep hne
      · rw [hrow] at hrow2
        injection hrow2 with hi
        subst hi
        exact ⟨element, hget, hlen2, by simp⟩
      · rw [hrow] at hnone
        exact absurd hnone (by simp)
    · obtain ⟨element, hget, hlen, hin⟩ := ih htl hstep hrow h2
      exact ⟨element, hget, hlen, List.mem_append.mpr (Or.inr hin)⟩

/-- An iteration whose key differs from the given one records no delegated
write for that key. -/
lemma processSemanticInput_delegate_ne
    {renderer : Renderer} {matrix : Mat4} {input : PerInstanceInput}
    {key k : SemanticInputKey} {input_data : SemanticInputData}
    {buf buf1 : List Nat} {evs : List WriteEvent}
    (h : processSemanticInput renderer matrix input key input_data buf =
      some (buf1, evs))
    (hne : key ≠ k) :
    evs.filter (isDelegateFor k) = [] := by
  rw [List.filter_eq_nil_iff]
  intro e he
  rcases processSemanticInput_source h e he with ⟨i, hi⟩ | hd
  · simp [isDelegateFor, hi]
  · simp [isDelegateFor, hd, hne]

/-- The fold records no delegated write for a key absent from the list. -/
lemma processSemanticInputs_delegate_nil
    {renderer : Renderer} {matrix : Mat4} {input : PerInstanceInput}
    {k : SemanticInputKey} :
    ∀ {list : List (SemanticInputKey × SemanticInputData)}
      {buf buf2 : List Nat} {evs : List WriteEvent},
      k ∉ list.map Prod.fst →
      processSemanticInputs renderer matrix input list buf =
        some (buf2, evs) →
      evs.filter (isDelegateFor k) = [] := by
  intro list
  induction list with
  | nil =>
    intro buf buf2 evs _ h
    rw [(processSemanticInputs_nil h).2]
    rfl
  | cons hd tl ih =>
    intro buf buf2 evs hnot h
    obtain ⟨key1, input_data1⟩ := hd
    obtain ⟨b1, e1, e2, h1, h2, rfl⟩ := processSemanticInputs_cons h
    rw [List.filter_append]
    have hne : key1 ≠ k := by
      intro hk
      exact hnot (by simp [hk])
    rw [processSemanticInput_delegate_ne h1 hne,
      ih (fun hm => hnot (by simp [hm])) h2]
    rfl

/-- For a custom instance entry of a key-unique list, the fold's delegated
writes for that key are exactly the one write produced by the renderer's
callback, applied to the in-bounds slice of an intermediate buffer of the
staging buffer's length at the entry's declared offset and size. -/
lemma processSemanticInputs_delegate_filter
    {renderer : Renderer} {matrix : Mat4} {input : PerInstanceInput}
    {tag : Nat} {input_data : SemanticInputData} :
    ∀ {list : List (SemanticInputKey × SemanticInputData)}
      {buf buf2 : List Nat} {evs : List WriteEvent},
      (SemanticInputKey.custom tag, input_data) ∈ list →
      (list.map Prod.fst).Nodup →
      input_data.step_mode = VertexStepMode.Instance →
      processSemanticInputs renderer matrix input list buf =
        some (buf2, evs) →
      ∃ element b1,
        input.elements.get? input_data.index = some element ∧
        b1.length = buf.length ∧
        input_data.offset + element.attr.format.size ≤ b1.length ∧
        evs.filter (isDelegateFor (SemanticInputKey.custom tag)) =
          [⟨input_data.offset,
            renderer.copy_semantic_per_instance_input
              (SemanticInputKey.custom tag)
              (readSlice b1 input_data.offset element.attr.format.size),
            WriteSource.semanticDelegate (SemanticInputKey.custom tag)⟩] := by
  intro list
  induction list with
  | nil =>
    intro buf buf2 evs hmem _ _ _
    exact absurd hmem (List.not_mem_nil _)
  | cons hd tl ih =>
    intro buf buf2 evs hmem hnodup hstep h
    obtain ⟨key1, input_data1⟩ := hd
    obtain ⟨b1, e1, e2, h1, h2, rfl⟩ := processSemanticInputs_cons h
    rw [List.map_cons, List.nodup_cons] at hnodup
    rcases List.mem_cons.mp hmem with heq | htl
    · injection heq with heqk heqd
      subst heqk
      subst heqd
      rcases processSemanticInput_cases h1 with ⟨hne, _, _⟩ |
        ⟨_, element, hget, hb, _,
          ⟨i2, hrow2, _, _, _⟩ | ⟨_, _, _, rfl⟩⟩
      · exact absurd hstep hne
      · exact absurd hrow2 (by simp [rowIndex])
      · refine ⟨element, buf, hget, rfl, hb, ?_⟩
        rw [List.filter_append,
          processSemanticInputs_delegate_nil hnodup.1 h2]
        simp [isDelegateFor]
    · have hne : key1 ≠ SemanticInputKey.custom tag := by
        intro hk
        have hmt : SemanticInputKey.custom tag ∈ tl.map Prod.fst :=
          List.mem_map.mpr ⟨_, htl, rfl⟩
        exact hnodup.1 (by rw [hk]; exact hmt)
      obtain ⟨element, bmid, hget, hlen, hbound, hfilter⟩ :=
        ih htl hnodup.2 hstep h2
      refine ⟨element, bmid, hget, ?_, hbound, ?_⟩
      · rw [hlen, processSemanticInput_length h1]
      · rw [List.filter_append, processSemanticInput_delegate_ne h1 hne,
          hfilter]
        rfl

/-- Full inversion for one iteration of the properties loop. -/
lemma processProperty_cases {buf : List Nat} {p : MaterialProperty}
    {buf1 : List Nat} {evs : List WriteEvent}
    (h : processProperty buf p = some (buf1, evs)) :
    (p.value = none ∧ buf1 = buf ∧ evs = []) ∨
    (∃ v, p.value = some v ∧
      p.offset + v.to_vertex_format.size ≤ buf.length ∧
      v.as_bytes.length = v.to_vertex_format.size ∧
      buf1 = writeBytes buf p.offset v.as_bytes ∧
      buf1.length = buf.length ∧
      evs = [⟨p.offset, v.as_bytes, WriteSource.propertyValue⟩]) := by
  rw [processProperty] at h
  rcases hv : p.value with _ | v
  · rw [hv] at h
    injection h with h
    injection h with ha hb
    exact Or.inl ⟨rfl, ha.symm, hb.symm⟩
  · rw [hv] at h
    obtain ⟨hb, hd, h1, hlen, hevs⟩ := sliceCopyEvent_some h
    exact Or.inr ⟨v, rfl, hb, hd, h1, hlen, hevs⟩

/-- Inversion for one step of the properties fold. -/
lemma processProperties_cons {p : MaterialProperty}
    {rest : List MaterialProperty} {buf buf2 : List Nat}
    {evs : List WriteEvent}
    (h : processProperties (p :: rest) buf = some (buf2, evs)) :
    ∃ buf1 evs1 evs2,
      processProperty buf p = some (buf1, evs1) ∧
      processProperties rest buf1 = some (buf2, evs2) ∧
      evs = evs1 ++ evs2 := by
  rw [processProperties] at h
  rcases h1 : processProperty buf p with _ | ⟨b1, e1⟩
  · rw [h1] at h
    exact absurd h (by simp)
  · rw [h1] at h
    dsimp only [] at h
    rcases h2 : processProperties rest b1 with _ | ⟨b2, e2⟩
    · rw [h2] at h
      exact absurd h (by simp)
    · rw [h2] at h
      injection h with h
      injection h with ha hb
      exact ⟨b1, e1, e2, rfl, ha ▸ h2, hb.symm⟩

/-- Inversion for the empty properties fold. -/
lemma processProperties_nil {buf buf2 : List Nat} {evs : List WriteEvent}
    (h : processProperties [] buf = some (buf2, evs)) :
    buf2 = buf ∧ evs = [] := by
  rw [processProperties] at h
  injection h with h
  injection h with ha hb
  exact ⟨ha.symm, hb.symm⟩

/-- The properties fold preserves the buffer length. -/
lemma processProperties_length :
    ∀ {list : List MaterialProperty} {buf buf2 : List Nat}
      {evs : List WriteEvent},
      processProperties list buf = some (buf2, evs) →
      buf2.length = buf.length := by
  intro list
  induction list with
  | nil =>
    intro buf buf2 evs h
    rw [(processProperties_nil h).1]
  | cons hd tl ih =>
    intro buf buf2 evs h
    obtain ⟨b1, e1, e2, h1, h2, _⟩ := processProperties_cons h
    rcases processProperty_cases h1 with ⟨_, rfl, _⟩ |
      ⟨_, _, _, _, _, hlen, _⟩
    · exact ih h2
    · rw [ih h2, hlen]

/-- Every event of the properties fold lies inside the buffer, has bytes
filling the declared format, comes from a property value, and is recorded
for some listed property with a present value. -/
lemma processProperties_events :
    ∀ {list : List MaterialProperty} {buf buf2 : List Nat}
      {evs : List WriteEvent},
      processProperties list buf = some (buf2, evs) →
      ∀ e ∈ evs, e.offset + e.data.length ≤ buf.length ∧
        e.source = WriteSource.propertyValue := by
  intro list
  induction list with
  | nil =>
    intro buf buf2 evs h e he
    rw [(processProperties_nil h).2] at he
    exact absurd he (List.not_mem_nil e)
  | cons hd tl ih =>
    intro buf buf2 evs h e he
    obtain ⟨b1, e1, e2, h1, h2, rfl⟩ := processProperties_cons h
    rcases List.mem_append.mp he with h3 | h3
    · rcases processProperty_cases h1 with ⟨_, _, rfl⟩ |
        ⟨v, _, hb, hd, _, _, rfl⟩
      · exact absurd h3 (List.not_mem_nil e)
      · rw [List.mem_singleton] at h3
        subst h3
        exact ⟨by simpa [hd] using hb, rfl⟩
    · have hlen1 : b1.length = buf.length := by
        rcases processProperty_cases h1 with ⟨_, rfl, _⟩ |
          ⟨_, _, _, _, _, hlen, _⟩
        · rfl
        · exact hlen
      have := ih h2 e h3
      rw [hlen1] at this
      exact this

/-- The properties fold records exactly one event per present value. -/
lemma processProperties_count :
    ∀ {list : List MaterialProperty} {buf buf2 : List Nat}
      {evs : List WriteEvent},
      processProperties list buf = some (buf2, evs) →
      evs.length = (list.filter hasValue).length := by
  intro list
  induction list with
  | nil =>
    intro buf buf2 evs h
    rw [(processProperties_nil h).2]
    rfl
  | cons hd tl ih =>
    intro buf buf2 evs h
    obtain ⟨b1, e1, e2, h1, h2, rfl⟩ := processProperties_cons h
    rw [List.length_append, ih h2, List.filter_cons]
    rcases processProperty_cases h1 with ⟨hv, _, rfl⟩ |
      ⟨v, hv, _, _, _, _, rfl⟩
    · have : hasValue hd = false := by simp [hasValue, hv]
      simp [this]
    · have : hasValue hd = true := by simp [hasValue, hv]
      simp [this, Nat.add_comm]

/-- A property with a present value yields its write in the fold's events,
with the serialized bytes filling the declared vertex format. -/
lemma processProperties_mem {p : MaterialProperty} {v : PropertyValue} :
    ∀ {list : List MaterialProperty} {buf buf2 : List Nat}
      {evs : List WriteEvent},
      p ∈ list →
      p.value = some v →
      processProperties list buf = some (buf2, evs) →
      v.as_bytes.length = v.to_vertex_format.size ∧
      WriteEvent.mk p.offset v.as_bytes WriteSource.propertyValue ∈ evs := by
  intro list
  induction list with
  | nil =>
    intro buf buf2 evs hmem _ _
    exact absurd hmem (List.not_mem_nil _)
  | cons hd tl ih =>
    intro buf buf2 evs hmem hv h
    obtain ⟨b1, e1, e2, h1, h2, rfl⟩ := processProperties_cons h
    rcases List.mem_cons.mp hmem with heq | htl
    · subst heq
      rcases processProperty_cases h1 with ⟨hnone, _, _⟩ |
        ⟨v2, hv2, _, hd2, _, _, rfl⟩
      · rw [hv] at hnone
        exact absurd hnone (by simp)
      · rw [hv] at hv2
        injection hv2 with hv2
        subst hv2
        exact ⟨hd2, by simp⟩
    · obtain ⟨hlen, hin⟩ := ih htl hv h2
      exact ⟨hlen, List.mem_append.mpr (Or.inr hin)⟩

/-- When the provider resolves neither pipeline nor material,
build_rendering_command returns none without allocating, writing or
committing anything. -/
lemma build_unresolved {object_id : ObjectId} {hier : ObjectHierarchy}
    {renderer : Renderer}
    (h : renderer.obtain_pipeline = none ∨ renderer.material = none) :
    build_rendering_command object_id hier renderer =
      some ⟨none, [], [], 0⟩ := by
  rw [build_rendering_command]
  rcases h with h | h
  · rw [h]
  · rcases hp : renderer.obtain_pipeline with _ | pipeline
    · rfl
    · rw [h]

/-- Full inversion of a successful build: both provider queries resolved,
both loops succeeded on a staging buffer of the reflected stride, and the
output is assembled from their results and the second material query. -/
lemma build_success_inv
    {object_id : ObjectId} {hier : ObjectHierarchy} {renderer : Renderer}
    {out : BuildOutput}
    (hb : build_rendering_command object_id hier renderer = some out)
    (hc : out.command.isSome = true) :
    ∃ pipeline m buf1 evs1 buf2 evs2,
      renderer.obtain_pipeline = some pipeline ∧
      renderer.material = some m ∧
      processSemanticInputs renderer (hier.matrix object_id)
        (instanceInput m) m.semantic_inputs
        (alloc_staging_buffer (instanceInput m).stride) =
        some (buf1, evs1) ∧
      processProperties m.per_instance_properties buf1 = some (buf2, evs2) ∧
      out = ⟨some ⟨pipeline, m, renderer.vertex_count,
        renderer.vertex_buffers, some buf2⟩,
        [(instanceInput m).stride], evs1 ++ evs2, 1⟩ := by
  rw [build_rendering_command] at hb
  rcases hp : renderer.obtain_pipeline with _ | pipeline
  · rw [hp] at hb
    injection hb with hb
    rw [← hb] at hc
    exact absurd hc (by simp)
  · rw [hp] at hb
    dsimp only [] at hb
    rcases hm : renderer.material with _ | m
    · rw [hm] at hb
      dsimp only [] at hb
      injection hb with hb
      rw [← hb] at hc
      exact absurd hc (by simp)
    · rw [hm] at hb
      dsimp only [] at hb
      rcases h1 : processSemanticInputs renderer (hier.matrix object_id)
          m.shader.reflected_shader.per_instance_input m.semantic_inputs
          (alloc_staging_buffer
            m.shader.reflected_shader.per_instance_input.stride)
        with _ | ⟨buf1, evs1⟩
      · rw [h1] at hb
        exact absurd hb (by simp)
      · rw [h1] at hb
        dsimp only [] at hb
        rcases h2 : processProperties m.per_instance_properties buf1
          with _ | ⟨buf2, evs2⟩
        · rw [h2] at hb
          exact absurd hb (by simp)
        · rw [h2] at hb
          dsimp only [] at hb
          injection hb with hb
          exact ⟨pipeline, m, buf1, evs1, buf2, evs2, rfl, rfl, h1, h2,
            hb.symm⟩

/-- When both provider queries resolve, any non-panicking build carries a
command. -/
lemma build_resolved_command_some
    {object_id : ObjectId} {hier : ObjectHierarchy} {renderer : Renderer}
    {out : BuildOutput} {pipeline : Nat} {m : Material}
    (hp : renderer.obtain_pipeline = some pipeline)
    (hm : renderer.material = some m)
    (hb : build_rendering_command object_id hier renderer = some out) :
    out.command.isSome = true := by
  rw [build_rendering_command, hp, hm] at hb
  dsimp only [] at hb
  rcases h1 : processSemanticInputs renderer (hier.matrix object_id)
      m.shader.reflected_shader.per_instance_input m.semantic_inputs
      (alloc_staging_buffer
        m.shader.reflected_shader.per_instance_input.stride)
    with _ | ⟨buf1, evs1⟩
  · rw [h1] at hb
    exact absurd hb (by simp)
  · rw [h1] at hb
    dsimp only [] at hb
    rcases h2 : processProperties m.per_instance_properties buf1
      with _ | ⟨buf2, evs2⟩
    · rw [h2] at hb
      exact absurd hb (by simp)
    · rw [h2] at hb
      dsimp only [] at hb
      injection hb with hb
      rw [← hb]
      rfl

/-- Inversion for one step of the bind-group loop. -/
lemma bindGroupCommands_cons {holders : List BindGroupHolder}
    {bi : BindGroupIndex} {rest : List BindGroupIndex} {bgs : List PassCmd}
    (h : bindGroupCommands holders (bi :: rest) = some bgs) :
    ∃ holder cs, holders.get? bi.group_index = some holder ∧
      bindGroupCommands holders rest = some cs ∧
      ((∃ bg, holder.bind_group = some bg ∧
          bgs = PassCmd.setBindGroup holder.group bg :: cs) ∨
        (holder.bind_group = none ∧ bgs = cs)) := by
  rw [bindGroupCommands] at h
  rcases hget : holders.get? bi.group_index with _ | holder
  · rw [hget] at h
    exact absurd h (by simp)
  · rw [hget] at h
    dsimp only [] at h
    rcases hrec : bindGroupCommands holders rest with _ | cs
    · rw [hrec] at h
      exact absurd h (by simp)
    · rw [hrec] at h
      dsimp only [] at h
      rcases hbg : holder.bind_group with _ | bg
      · rw [hbg] at h
        injection h with h
        exact ⟨holder, cs, rfl, rfl, Or.inr ⟨hbg, h.symm⟩⟩
      · rw [hbg] at h
        injection h with h
        exact ⟨holder, cs, rfl, rfl, Or.inl ⟨bg, hbg, h.symm⟩⟩

/-- Every command of the bind-group loop is a set_bind_group. -/
lemma bindGroupCommands_all_bind {holders : List BindGroupHolder} :
    ∀ {props : List BindGroupIndex} {bgs : List PassCmd},
      bindGroupCommands holders props = some bgs →
      ∀ c ∈ bgs, c.isBindGroupCmd = true := by
  intro props
  induction props with
  | nil =>
    intro bgs h c hc
    rw [bindGroupCommands] at h
    injection h with h
    rw [← h] at hc
    exact absurd hc (List.not_mem_nil c)
  | cons bi rest ih =>
    intro bgs h c hc
    obtain ⟨holder, cs, _, hrec, ⟨bg, _, rfl⟩ | ⟨_, rfl⟩⟩ :=
      bindGroupCommands_cons h
    · rcases List.mem_cons.mp hc with rfl | hc2
      · rfl
      · exact ih hrec c hc2
    · exact ih hrec c hc

/-- The bind-group loop binds exactly the holders referenced by the
bind-property entries, in order, one binding per entry whose referenced
holder has a compiled bind group, each at the holder's declared group
index. -/
lemma bindGroupCommands_filterMap {holders : List BindGroupHolder} :
    ∀ {props : List BindGroupIndex} {bgs : List PassCmd},
      bindGroupCommands holders props = some bgs →
      bgs = props.filterMap (fun bi =>
        (holders.get? bi.group_index).bind (fun holder =>
          holder.bind_group.map (fun bg =>
            PassCmd.setBindGroup holder.group bg))) := by
  intro props
  induction props with
  | nil =>
    intro bgs h
    rw [bindGroupCommands] at h
    injection h with h
    rw [← h]
    rfl
  | cons bi rest ih =>
    intro bgs h
    obtain ⟨holder, cs, hget, hrec, ⟨bg, hbg, rfl⟩ | ⟨hbg, rfl⟩⟩ :=
      bindGroupCommands_cons h
    · rw [List.filterMap_cons, hget, ih hrec]
      simp [hbg]
    · rw [List.filterMap_cons, hget, ih hrec]
      simp [hbg]

/-- No vertex-buffer binding is a set_bind_group. -/
lemma vertexBufferCommands_not_bind :
    ∀ (start : Nat) (bufs : List GenericBufferAllocation),
      ∀ c ∈ vertexBufferCommands start bufs, c.isBindGroupCmd = false := by
  intro start bufs
  induction bufs generalizing start with
  | nil =>
    intro c hc
    exact absurd hc (List.not_mem_nil c)
  | cons buffer rest ih =>
    intro c hc
    rw [vertexBufferCommands] at hc
    rcases List.mem_cons.mp hc with rfl | hc2
    · rfl
    · exact ih (start + 1) c hc2

/-- Membership in the vertex-buffer bindings: exactly the buffers of the
list, each at its sequential slot. -/
lemma vertexBufferCommands_mem :
    ∀ {start : Nat} {bufs : List GenericBufferAllocation} {slot : Nat}
      {b : GenericBufferAllocation},
      PassCmd.setVertexBuffer slot b ∈ vertexBufferCommands start bufs ↔
        ∃ j, ∃ hj : j < bufs.length, slot = start + j ∧
          b = bufs.get ⟨j, hj⟩ := by
  intro start bufs
  induction bufs generalizing start with
  | nil =>
    intro slot b
    constructor
    · intro hc
      exact absurd hc (List.not_mem_nil _)
    · rintro ⟨j, hj, _⟩
      exact absurd hj (by simp)
  | cons buffer rest ih =>
    intro slot b
    rw [vertexBufferCommands]
    constructor
    · intro hc
      rcases List.mem_cons.mp hc with heq | hc2
      · injection heq with h1 h2
        exact ⟨0, by simp, by omega, by simp [← h2]⟩
      · obtain ⟨j, hj, hslot, hget⟩ := ih.mp hc2
        refine ⟨j + 1, by simpa using hj, by omega, ?_⟩
        rw [hget]
        rfl
    · rintro ⟨j, hj, hslot, hget⟩
      rcases j with _ | j
      · have hs : slot = start := by omega
        subst hs
        have hbb : b = buffer := by simpa using hget
        subst hbb
        exact List.mem_cons_self _ _
      · refine List.mem_cons.mpr (Or.inr (ih.mpr
          ⟨j, by simpa using hj, by omega, ?_⟩))
        rw [hget]
        rfl

/-- C1: for every material whose semantic_inputs contains, for a
well-known transform-row key, an entry with step_mode Instance, a
successful build writes the bytes of the corresponding row of the object's
world matrix at that entry's declared offset, the row bytes filling the
size of the attribute format at the entry's index; entries whose step mode
is not Instance cause no write (exactly one write per instance-step entry
plus one per present property value is recorded); and in the stride-64
identity scenario the committed 64-byte instance region equals the four
identity rows concatenated in order. -/
theorem build_writes_transform_rows
    (object_id : ObjectId) (hier : ObjectHierarchy) (renderer : Renderer)
    (out : BuildOutput) (m : Material)
    (hm : renderer.material = some m)
    (hb : build_rendering_command object_id hier renderer = some out)
    (hc : out.command.isSome = true) :
    (∀ (key : SemanticInputKey) (input_data : SemanticInputData) (i : Fin 4),
      (key, input_data) ∈ m.semantic_inputs →
      input_data.step_mode = VertexStepMode.Instance →
      rowIndex key = some i →
      ∃ element,
        (instanceInput m).elements.get? input_data.index = some element ∧
        ((hier.matrix object_id).row i).length = element.attr.format.size ∧
        WriteEvent.mk input_data.offset ((hier.matrix object_id).row i)
          (WriteSource.transformRow i) ∈ out.writes) ∧
    out.writes.length =
      (m.semantic_inputs.filter isInstanceEntry).length +
      (m.per_instance_properties.filter hasValue).length ∧
    (∃ outId cmdId,
      build_rendering_command 0 hier0 renderer0 = some outId ∧
      outId.command = some cmdId ∧
      cmdId.per_instance_buffer = some identityBytes) := by
  obtain ⟨p, m2, buf1, evs1, buf2, evs2, hp, hm2, h1, h2, hout⟩ :=
    build_success_inv hb hc
  rw [hm] at hm2
  injection hm2 with hm2
  subst hm2
  refine ⟨?_, ?_, ⟨outS, _, buildS_eq, rfl, rfl⟩⟩
  · intro key input_data i hmem hstep hrow
    obtain ⟨element, hget, hlen, hin⟩ :=
      processSemanticInputs_row_mem hmem hstep hrow h1
    rw [hout]
    exact ⟨element, hget, hlen, List.mem_append.mpr (Or.inl hin)⟩
  · rw [hout]
    show (evs1 ++ evs2).length = _
    rw [List.length_append, processSemanticInputs_count h1,
      processProperties_count h2]

/-- Witness for C1: in the identity scenario, the write of transform row 0
at offset 0 is recorded. -/
theorem build_writes_transform_rows_witness :
    WriteEvent.mk 0 ((hier0.matrix 0).row 0) (WriteSource.transformRow 0)
      ∈ outS.writes := by
  obtain ⟨element, _, _, hin⟩ :=
    (build_writes_transform_rows 0 hier0 renderer0 outS mat64 rfl buildS_eq
      (by decide)).1 SemanticInputKey.transformRow0
      ⟨VertexStepMode.Instance, 0, 0⟩ 0 (by decide) rfl rfl
  exact hin

/-- C2: build_rendering_command returns no command, with no staging
allocation, no writes and no commit, exactly when the provider resolves no
pipeline or no material; when it returns a command, both resolved, exactly
one commit happened and the command carries its per-instance buffer. -/
theorem build_none_iff_unresolved
    (object_id : ObjectId) (hier : ObjectHierarchy) (renderer : Renderer) :
    ((renderer.obtain_pipeline = none ∨ renderer.material = none) →
      build_rendering_command object_id hier renderer =
        some ⟨none, [], [], 0⟩) ∧
    (∀ out, build_rendering_command object_id hier renderer = some out →
      ((out.command.isSome = true ↔
        (renderer.obtain_pipeline.isSome = true ∧
          renderer.material.isSome = true)) ∧
       (out.command = none →
        out.staging_allocs = [] ∧ out.writes = [] ∧ out.commits = 0) ∧
       (∀ cmd, out.command = some cmd →
        out.commits = 1 ∧ cmd.per_instance_buffer.isSome = true))) := by
  refine ⟨build_unresolved, ?_⟩
  intro out hb
  refine ⟨⟨?_, ?_⟩, ?_, ?_⟩
  · intro hc
    obtain ⟨p, m, _, _, _, _, hp, hm, _, _, _⟩ := build_success_inv hb hc
    exact ⟨by rw [hp]; rfl, by rw [hm]; rfl⟩
  · rintro ⟨hps, hms⟩
    obtain ⟨p, hp⟩ := Option.isSome_iff_exists.mp hps
    obtain ⟨m, hm⟩ := Option.isSome_iff_exists.mp hms
    exact build_resolved_command_some hp hm hb
  · intro hnone
    rcases hp : renderer.obtain_pipeline with _ | p
    · have h0 := @build_unresolved object_id hier renderer (Or.inl hp)
      rw [hb] at h0
      injection h0 with h0
      rw [h0]
      exact ⟨rfl, rfl, rfl⟩
    · rcases hm : renderer.material with _ | m
      · have h0 := @build_unresolved object_id hier renderer (Or.inr hm)
        rw [hb] at h0
        injection h0 with h0
        rw [h0]
        exact ⟨rfl, rfl, rfl⟩
      · have := build_resolved_command_some hp hm hb
        rw [hnone] at this
        exact absurd this (by simp)
  · intro cmd hcmd
    have hc : out.command.isSome = true := by rw [hcmd]; rfl
    obtain ⟨p, m, buf1, evs1, buf2, evs2, hp, hm, h1, h2, hout⟩ :=
      build_success_inv hb hc
    rw [hout] at hcmd
    injection hcmd with hcmd
    rw [hout, ← hcmd]
    exact ⟨rfl, rfl⟩

/-- Witness for C2: the renderer with an unresolved provider builds the
empty output. -/
theorem build_none_iff_unresolved_witness :
    build_rendering_command 0 hier0 rendererNone =
      some ⟨none, [], [], 0⟩ :=
  (build_none_iff_unresolved 0 hier0 rendererNone).1 (Or.inl rfl)

/-- C5: a successful build performs exactly one staging allocation, of the
material's reflected per-instance stride, and every write it records lies
inside the byte range of that stride. -/
theorem build_allocates_stride_writes_within
    (object_id : ObjectId) (hier : ObjectHierarchy) (renderer : Renderer)
    (out : BuildOutput) (m : Material)
    (hm : renderer.material = some m)
    (hb : build_rendering_command object_id hier renderer = some out)
    (hc : out.command.isSome = true) :
    out.staging_allocs = [(instanceInput m).stride] ∧
    ∀ e ∈ out.writes,
      e.offset + e.data.length ≤ (instanceInput m).stride := by
  obtain ⟨p, m2, buf1, evs1, buf2, evs2, hp, hm2, h1, h2, hout⟩ :=
    build_success_inv hb hc
  rw [hm] at hm2
  injection hm2 with hm2
  subst hm2
  rw [hout]
  refine ⟨rfl, ?_⟩
  intro e he
  have hstag : (alloc_staging_buffer (instanceInput m).stride).length =
      (instanceInput m).stride := by
    simp [alloc_staging_buffer]
  have he2 : e ∈ evs1 ++ evs2 := he
  rcases List.mem_append.mp he2 with h3 | h3
  · have hbound := processSemanticInputs_bounds h1 e h3
    rw [hstag] at hbound
    exact hbound
  · have hbound := (processProperties_events h2 e h3).1
    have hb1 : buf1.length = (instanceInput m).stride := by
      rw [processSemanticInputs_length h1, hstag]
    rw [hb1] at hbound
    exact hbound

/-- Witness for C5: the identity scenario allocates exactly its 64-byte
stride. -/
theorem build_allocates_stride_writes_within_witness :
    outS.staging_allocs = [(instanceInput mat64).stride] :=
  (build_allocates_stride_writes_within 0 hier0 renderer0 outS mat64 rfl
    buildS_eq (by decide)).1

/-- C6: the provider is queried for its material twice; when the first
query resolves to m and assembly succeeds, the build completes (the final
unwrap cannot panic) and the returned command's material is that same m. -/
theorem material_queried_twice_same
    (object_id : ObjectId) (hier : ObjectHierarchy) (renderer : Renderer)
    (pipeline : Nat) (m : Material) (buf1 buf2 : List Nat)
    (evs1 evs2 : List WriteEvent)
    (hp : renderer.obtain_pipeline = some pipeline)
    (hm : renderer.material = some m)
    (h1 : processSemanticInputs renderer (hier.matrix object_id)
      (instanceInput m) m.semantic_inputs
      (alloc_staging_buffer (instanceInput m).stride) = some (buf1, evs1))
    (h2 : processProperties m.per_instance_properties buf1 =
      some (buf2, evs2)) :
    build_rendering_command object_id hier renderer =
      some ⟨some ⟨pipeline, m, renderer.vertex_count,
        renderer.vertex_buffers, commit_staging_buffer buf2⟩,
        [(instanceInput m).stride], evs1 ++ evs2, 1⟩ ∧
    (∀ out cmd, build_rendering_command object_id hier renderer = some out →
      out.command = some cmd → cmd.material = m) := by
  constructor
  · simp only [instanceInput] at h1
    rw [build_rendering_command, hp, hm]
    dsimp only []
    rw [h1]
    dsimp only []
    rw [h2]
    rfl
  · intro out cmd hb hcmd
    have hc : out.command.isSome = true := by rw [hcmd]; rfl
    obtain ⟨p2, m2, b1, e1, b2, e2, hp2, hm2, _, _, hout⟩ :=
      build_success_inv hb hc
    rw [hm] at hm2
    injection hm2 with hm2
    subst hm2
    rw [hout] at hcmd
    injection hcmd with hcmd
    rw [← hcmd]

/-- Witness for C6: the identity scenario builds the full command from the
single resolved material. -/
theorem material_queried_twice_same_witness :
    build_rendering_command 0 hier0 renderer0 =
      some ⟨some ⟨0, mat64, renderer0.vertex_count,
        renderer0.vertex_buffers, commit_staging_buffer identityBytes⟩,
        [(instanceInput mat64).stride],
        [⟨0, identityRowBytes 0, WriteSource.transformRow 0⟩,
         ⟨16, identityRowBytes 1, WriteSource.transformRow 1⟩,
         ⟨32, identityRowBytes 2, WriteSource.transformRow 2⟩,
         ⟨48, identityRowBytes 3, WriteSource.transformRow 3⟩] ++ [], 1⟩ :=
  (material_queried_twice_same 0 hier0 renderer0 0 mat64 identityBytes
    identityBytes
    [⟨0, identityRowBytes 0, WriteSource.transformRow 0⟩,
     ⟨16, identityRowBytes 1, WriteSource.transformRow 1⟩,
     ⟨32, identityRowBytes 2, WriteSource.transformRow 2⟩,
     ⟨48, identityRowBytes 3, WriteSource.transformRow 3⟩] []
    rfl rfl (by decide) (by decide)).1

/-- C7: for every instance-step semantic entry whose key is not a
well-known transform row, a successful build invokes the renderer's
copy_semantic_per_instance_input exactly once for that key, handing it the
in-bounds slice of the staging buffer at the entry's declared offset with
the size of the attribute format at the entry's index, and records exactly
the bytes the renderer produced (the core writes nothing there itself). -/
theorem custom_semantic_delegated_once
    (object_id : ObjectId) (hier : ObjectHierarchy) (renderer : Renderer)
    (out : BuildOutput) (m : Material) (tag : Nat)
    (input_data : SemanticInputData)
    (hm : renderer.material = some m)
    (hb : build_rendering_command object_id hier renderer = some out)
    (hc : out.command.isSome = true)
    (hnodup : (m.semantic_inputs.map Prod.fst).Nodup)
    (hmem : (SemanticInputKey.custom tag, input_data) ∈ m.semantic_inputs)
    (hstep : input_data.step_mode = VertexStepMode.Instance) :
    ∃ element b1,
      (instanceInput m).elements.get? input_data.index = some element ∧
      b1.length = (instanceInput m).stride ∧
      input_data.offset + element.attr.format.size ≤ b1.length ∧
      (readSlice b1 input_data.offset element.attr.format.size).length =
        element.attr.format.size ∧
      out.writes.filter (isDelegateFor (SemanticInputKey.custom tag)) =
        [⟨input_data.offset,
          renderer.copy_semantic_per_instance_input
            (SemanticInputKey.custom tag)
            (readSlice b1 input_data.offset element.attr.format.size),
          WriteSource.semanticDelegate (SemanticInputKey.custom tag)⟩] := by
  obtain ⟨p, m2, buf1, evs1, buf2, evs2, hp, hm2, h1, h2, hout⟩ :=
    build_success_inv hb hc
  rw [hm] at hm2
  injection hm2 with hm2
  subst hm2
  obtain ⟨element, b1, hget, hlen, hbound, hfilter⟩ :=
    processSemanticInputs_delegate_filter hmem hnodup hstep h1
  have hstag : (alloc_staging_buffer (instanceInput m).stride).length =
      (instanceInput m).stride := by
    simp [alloc_staging_buffer]
  rw [hstag] at hlen
  refine ⟨element, b1, hget, hlen, hbound, readSlice_length hbound, ?_⟩
  rw [hout]
  show (evs1 ++ evs2).filter _ = _
  have hnil : evs2.filter (isDelegateFor (SemanticInputKey.custom tag)) =
      [] := by
    rw [List.filter_eq_nil_iff]
    intro e he
    have hsrc := (processProperties_events h2 e he).2
    simp [isDelegateFor, hsrc]
  rw [List.filter_append, hfilter, hnil]
  rfl

/-- Witness for C7: in the custom-semantic scenario the delegated write for
key 9 is recorded exactly once. -/
theorem custom_semantic_delegated_once_witness :
    (outC.writes.filter
      (isDelegateFor (SemanticInputKey.custom 9))).length = 1 := by
  obtain ⟨element, b1, _, _, _, _, hfilter⟩ :=
    custom_semantic_delegated_once 0 hier0 rendererC outC matC 9
      ⟨VertexStepMode.Instance, 0, 0⟩ rfl buildC_eq (by decide) (by decide)
      (by decide) rfl
  rw [hfilter]
  rfl

/-- C8: every per-instance property with a present value has its
serialized bytes written at its declared offset, the bytes filling the
size of its declared vertex format, and a successful build records exactly
one property write per present value (absent values write nothing). -/
theorem property_values_written
    (object_id : ObjectId) (hier : ObjectHierarchy) (renderer : Renderer)
    (out : BuildOutput) (m : Material)
    (hm : renderer.material = some m)
    (hb : build_rendering_command object_id hier renderer = some out)
    (hc : out.command.isSome = true) :
    (∀ p ∈ m.per_instance_properties, ∀ v, p.value = some v →
      v.as_bytes.length = v.to_vertex_format.size ∧
      WriteEvent.mk p.offset v.as_bytes WriteSource.propertyValue ∈
        out.writes) ∧
    (out.writes.filter isPropertyWrite).length =
      (m.per_instance_properties.filter hasValue).length := by
  obtain ⟨p2, m2, buf1, evs1, buf2, evs2, hp, hm2, h1, h2, hout⟩ :=
    build_success_inv hb hc
  rw [hm] at hm2
  injection hm2 with hm2
  subst hm2
  rw [hout]
  constructor
  · intro p hpmem v hv
    obtain ⟨hlen, hin⟩ := processProperties_mem hpmem hv h2
    exact ⟨hlen, List.mem_append.mpr (Or.inr hin)⟩
  · show ((evs1 ++ evs2).filter isPropertyWrite).length = _
    have hnil : evs1.filter isPropertyWrite = [] := by
      rw [List.filter_eq_nil_iff]
      intro e he
      rcases processSemanticInputs_source h1 e he with ⟨i, hi⟩ | ⟨k, _, hk⟩
      · simp [isPropertyWrite, hi]
      · simp [isPropertyWrite, hk]
    have hall : evs2.filter isPropertyWrite = evs2 := by
      rw [List.filter_eq_self]
      intro e he
      have hsrc := (processProperties_events h2 e he).2
      simp [isPropertyWrite, hsrc]
    rw [List.filter_append, hnil, hall, List.nil_append]
    exact processProperties_count h2

/-- Witness for C8: in the custom-semantic scenario the property write of
bytes [1,2,3,4] at offset 4 is recorded. -/
theorem property_values_written_witness :
    WriteEvent.mk 4 [1, 2, 3, 4] WriteSource.propertyValue ∈
      outC.writes := by
  obtain ⟨_, hin⟩ :=
    (property_values_written 0 hier0 rendererC outC matC rfl buildC_eq
      (by decide)).1 ⟨4, some ⟨⟨4⟩, [1, 2, 3, 4]⟩⟩ (by decide)
      ⟨⟨4⟩, [1, 2, 3, 4]⟩ rfl
  exact hin

/-- C3: render records exactly set_pipeline first, then only
set_bind_group calls, then the per-vertex buffers at sequential slots
starting at 0, then the per-instance buffer at the next slot exactly when
present, and finally the single draw over vertices 0..vertex_count and
instances 0..1. -/
theorem render_command_sequence
    (cmd : RenderingCommand) (cmds : List PassCmd)
    (h : cmd.render = some cmds) :
    ∃ bgs, bindGroupCommands cmd.material.bind_group_holders
        cmd.material.bind_properties = some bgs ∧
      (∀ c ∈ bgs, c.isBindGroupCmd = true) ∧
      cmds = PassCmd.setPipeline cmd.pipeline ::
        (bgs ++ vertexBufferCommands 0 cmd.per_vertex_buffers ++
          instanceBufferCommands cmd.per_vertex_buffers.length
            cmd.per_instance_buffer ++
          [PassCmd.draw 0 cmd.vertex_count 0 1]) ∧
      (∀ (i : Nat) (hi : i < cmd.per_vertex_buffers.length),
        PassCmd.setVertexBuffer i (cmd.per_vertex_buffers.get ⟨i, hi⟩) ∈
          cmds) ∧
      (∀ b, PassCmd.setVertexBuffer cmd.per_vertex_buffers.length b ∈
          cmds ↔ cmd.per_instance_buffer = some b) := by
  rw [RenderingCommand.render] at h
  rcases hbg : bindGroupCommands cmd.material.bind_group_holders
      cmd.material.bind_properties with _ | bgs
  · rw [hbg] at h
    exact absurd h (by simp)
  · rw [hbg] at h
    injection h with h
    refine ⟨bgs, rfl, bindGroupCommands_all_bind hbg, h.symm, ?_, ?_⟩
    · intro i hi
      rw [← h]
      apply List.mem_cons_of_mem
      refine List.mem_append.mpr (Or.inl (List.mem_append.mpr (Or.inl
        (List.mem_append.mpr (Or.inr ?_)))))
      exact vertexBufferCommands_mem.mpr ⟨i, hi, by omega, rfl⟩
    · intro b
      rw [← h]
      constructor
      · intro hmem
        rcases List.mem_cons.mp hmem with heq | hmem2
        · exact absurd heq (by simp)
        · rcases List.mem_append.mp hmem2 with h3 | hdraw
          · rcases List.mem_append.mp h3 with h5 | hinst
            · rcases List.mem_append.mp h5 with hbgs | hvtx
              · have := bindGroupCommands_all_bind hbg _ hbgs
                exact absurd this (by simp [PassCmd.isBindGroupCmd])
              · obtain ⟨j, hj, hslot, _⟩ := vertexBufferCommands_mem.mp hvtx
                omega
            · rcases hpi : cmd.per_instance_buffer with _ | b2
              · rw [hpi] at hinst
                exact absurd hinst (by simp [instanceBufferCommands])
              · rw [hpi] at hinst
                simp only [instanceBufferCommands,
                  List.mem_singleton] at hinst
                injection hinst with _ hb2
                rw [hb2]
          · exact absurd hdraw (by simp)
      · intro hpi
        apply List.mem_cons_of_mem
        refine List.mem_append.mpr (Or.inl (List.mem_append.mpr
          (Or.inr ?_)))
        rw [hpi]
        simp [instanceBufferCommands]

/-- Witness for C3: in the render scenario the per-instance buffer is
bound at slot 2, right after the two per-vertex buffers. -/
theorem render_command_sequence_witness :
    PassCmd.setVertexBuffer 2 [9] ∈ cmdsR := by
  obtain ⟨bgs, _, _, _, _, hiff⟩ :=
    render_command_sequence cmdR cmdsR renderR_eq
  exact (hiff [9]).mpr rfl

/-- C4 counterexample: a command whose material has a holder with a
compiled bind group but no bind property referencing it; render succeeds
yet records no set_bind_group at all, so the holder with a present bind
group is not bound exactly once. -/
theorem render_unreferenced_holder_not_bound :
    cmdC4.render = some cmdsC4 ∧
    BindGroupHolder.mk 5 (some 7) ∈ cmdC4.material.bind_group_holders ∧
    cmdsC4.filter PassCmd.isBindGroupCmd = [] := by
  exact ⟨by decide, by decide, by decide⟩

/-- C4 amended: render binds bind groups by iterating the material's
bind_properties entries, in order: each entry whose referenced holder has
a present compiled bind group contributes one binding at that holder's
declared group index (entries whose holder's bind group is absent are
skipped without error); holders referenced by several entries are bound
once per entry and holders referenced by no entry are not bound. -/
theorem render_binds_once_per_bind_property
    (cmd : RenderingCommand) (cmds : List PassCmd)
    (h : cmd.render = some cmds) :
    cmds.filter PassCmd.isBindGroupCmd =
      cmd.material.bind_properties.filterMap (fun bi =>
        (cmd.material.bind_group_holders.get? bi.group_index).bind
          (fun holder => holder.bind_group.map (fun bg =>
            PassCmd.setBindGroup holder.group bg))) := by
  rw [RenderingCommand.render] at h
  rcases hbg : bindGroupCommands cmd.material.bind_group_holders
      cmd.material.bind_properties with _ | bgs
  · rw [hbg] at h
    exact absurd h (by simp)
  · rw [hbg] at h
    injection h with h
    rw [← h]
    have h2 : bgs.filter PassCmd.isBindGroupCmd = bgs :=
      List.filter_eq_self.mpr (bindGroupCommands_all_bind hbg)
    have h3 : (vertexBufferCommands 0 cmd.per_vertex_buffers).filter
        PassCmd.isBindGroupCmd = [] := by
      rw [List.filter_eq_nil_iff]
      intro c hc
      simp [vertexBufferCommands_not_bind 0 cmd.per_vertex_buffers c hc]
    have h4 : (instanceBufferCommands cmd.per_vertex_buffers.length
        cmd.per_instance_buffer).filter PassCmd.isBindGroupCmd = [] := by
      rcases cmd.per_instance_buffer with _ | b
      · rfl
      · rfl
    rw [List.filter_cons]
    have h1 : PassCmd.isBindGroupCmd (PassCmd.setPipeline cmd.pipeline) =
        false := rfl
    rw [h1]
    simp only [List.filter_append, h2, h3, h4]
    rw [bindGroupCommands_filterMap hbg]
    simp [PassCmd.isBindGroupCmd]

/-- Witness for C4 amended: the render scenario's single bind property
produces its single binding. -/
theorem render_binds_once_per_bind_property_witness :
    cmdsR.filter PassCmd.isBindGroupCmd =
      cmdR.material.bind_properties.filterMap (fun bi =>
        (cmdR.material.bind_group_holders.get? bi.group_index).bind
          (fun holder => holder.bind_group.map (fun bg =>
            PassCmd.setBindGroup holder.group bg))) :=
  render_binds_once_per_bind_property cmdR cmdsR renderR_eq

end EnterCore

namespace R3dAsset

/-- C9: TextureSource::load always succeeds, the loaded texture reports
the given id and returns every source field unchanged through its
accessors, and a texture source has no dependencies. -/
theorem texture_load_preserves_fields
    (source : TextureSource) (id : Nat) (deps : AssetDepsProvider) :
    (∃ t : Texture, source.load id deps = Except.ok t ∧
      t.id = id ∧ t.width = source.width ∧ t.height = source.height ∧
      t.format = source.format ∧ t.filter_mode = source.filter_mode ∧
      t.address_mode = source.address_mode ∧ t.texels = source.texels ∧
      t.sprites = source.sprites ∧
      t.nine_patches = source.nine_patches) ∧
    source.dependencies = [] :=
  ⟨⟨_, rfl, rfl, rfl, rfl, rfl, rfl, rfl, rfl, rfl, rfl⟩, rfl⟩

end R3dAsset

namespace ObjectModel

/-- C10: ObjectHandle equality compares exactly the object ids, ignoring
the context and entity fields, and is a full equivalence relation; in
particular two handles with different contexts and entities but the same
object id compare equal. -/
theorem object_handle_eq_iff_object_id :
    (∀ a b : ObjectHandle, a.eq b = true ↔ a.object_id = b.object_id) ∧
    Equivalence (fun a b : ObjectHandle => a.eq b = true) ∧
    ObjectHandle.eq ⟨0, 1, 7⟩ ⟨2, 3, 7⟩ = true := by
  have hiff : ∀ a b : ObjectHandle, a.eq b = true ↔
      a.object_id = b.object_id := by
    intro a b
    simp [ObjectHandle.eq]
  refine ⟨hiff, ⟨?_, ?_, ?_⟩, by decide⟩
  · intro a
    exact (hiff a a).mpr rfl
  · intro a b hab
    exact (hiff b a).mpr ((hiff a b).mp hab).symm
  · intro a b c hab hbc
    exact (hiff a c).mpr (((hiff a b).mp hab).trans ((hiff b c).mp hbc))

end ObjectModel

